import Mathlib

/-!
Shallow embedding of the proto-lab discrete-time radio simulator
(`src/device/wireless_modem.rs`, `src/ether_simulator.rs`,
`src/network_simulator.rs`), together with proofs checking the
natural-language specification against it.

Modelling conventions:
* machine bytes (`u8`) are carried as `Nat`; no byte arithmetic occurs
  anywhere in the code, bytes are only stored and moved;
* `VecDeque<u8>` becomes `List Nat` with the front of the deque at the
  head of the list (`pop_front` = pattern match on the head,
  `push_back` = append a singleton);
* `panic!` (and `unwrap` of an absent value) is modelled by returning
  `none` from an `Option`-valued operation; a `some` result is a normal
  return;
* `Arc<Mutex<...>>` shared state is modelled functionally: operations
  take and return the owning structure.  For the one claim about clone
  sharing, a dedicated two-level model (`EtherHandles`) separates the
  shared `devices` store from the per-handle fields copied by
  `EtherSimulator::clone`;
* `BTreeMap<String, u8>` is modelled as an association list kept
  strictly sorted by key (`btreeInsert`), iterated front to back.
-/

/-- Antenna state of the fake modem (`AntennaState` in
`wireless_modem.rs`): idle, transmitting one byte, or receiving one
byte.  The source's field spelling `antennta_state` is kept. -/
inductive AntennaState where
  | Transmit (b : Nat)
  | Receive (b : Nat)
  | Idle
deriving DecidableEq

/-- Tick phase of the fake modem (`TickState` in `wireless_modem.rs`). -/
inductive TickState where
  | InTick
  | OffTick
deriving DecidableEq

/-- The fake half-duplex modem (`WirelessModemFake` plus its
`InternalState`): `from_antenna_buffer` is the TX-pin queue (bytes
delivered from the ether, awaiting firmware reads) and
`to_antenna_buffer` is the RX-pin queue (bytes written by firmware,
awaiting transmission). -/
structure WirelessModemFake where
  name : String
  tick_state : TickState
  from_antenna_buffer : List Nat
  to_antenna_buffer : List Nat
  antennta_state : AntennaState
deriving DecidableEq

namespace WirelessModemFake

/-- `WirelessModemFake::new`: off tick, both queues empty, antenna idle. -/
def new (name : String) : WirelessModemFake :=
  { name := name
    tick_state := TickState.OffTick
    from_antenna_buffer := []
    to_antenna_buffer := []
    antennta_state := AntennaState.Idle }

/-- `get_from_device_network_side`: panics (`none`) when off tick;
inside a tick it reports the transmitted byte when the antenna is
`Transmit`, otherwise nothing.  The state is not modified. -/
def get_from_device_network_side (m : WirelessModemFake) : Option (Option Nat) :=
  match m.tick_state with
  | TickState.OffTick => none
  | TickState.InTick =>
    match m.antennta_state with
    | AntennaState.Transmit b => some (some b)
    | _ => some none

/-- `put_to_device_network_side`: panics (`none`) when off tick; inside
a tick a transmitting antenna drops the byte, otherwise the antenna is
set to `Receive b`, overwriting any prior `Receive`. -/
def put_to_device_network_side (m : WirelessModemFake) (b : Nat) : Option WirelessModemFake :=
  match m.tick_state with
  | TickState.OffTick => none
  | TickState.InTick =>
    match m.antennta_state with
    | AntennaState.Transmit _ => some m
    | AntennaState.Idle => some { m with antennta_state := AntennaState.Receive b }
    | AntennaState.Receive _ => some { m with antennta_state := AntennaState.Receive b }

/-- `get_from_tx_pin`: pop the front of `from_antenna_buffer`. -/
def get_from_tx_pin (m : WirelessModemFake) : WirelessModemFake × Option Nat :=
  match m.from_antenna_buffer with
  | [] => (m, none)
  | b :: rest => ({ m with from_antenna_buffer := rest }, some b)

/-- `put_to_rx_pin`: push the byte onto the back of `to_antenna_buffer`. -/
def put_to_rx_pin (m : WirelessModemFake) (b : Nat) : WirelessModemFake :=
  { m with to_antenna_buffer := m.to_antenna_buffer ++ [b] }

/-- `start_tick`: when off tick, latch the antenna from the head of
`to_antenna_buffer` (`Transmit` if a byte is queued, `Idle` otherwise)
and enter the tick; when already in a tick, do nothing. -/
def start_tick (m : WirelessModemFake) : WirelessModemFake :=
  match m.tick_state with
  | TickState.InTick => m
  | TickState.OffTick =>
    match m.to_antenna_buffer with
    | [] =>
      { m with antennta_state := AntennaState.Idle, tick_state := TickState.InTick }
    | b :: rest =>
      { m with
          antennta_state := AntennaState.Transmit b
          to_antenna_buffer := rest
          tick_state := TickState.InTick }

/-- `end_tick`: when in a tick, commit a received byte (if any) to
`from_antenna_buffer`, reset the antenna to idle, and leave the tick;
when already off tick, do nothing. -/
def end_tick (m : WirelessModemFake) : WirelessModemFake :=
  match m.tick_state with
  | TickState.OffTick => m
  | TickState.InTick =>
    match m.antennta_state with
    | AntennaState.Receive b =>
      { m with
          from_antenna_buffer := m.from_antenna_buffer ++ [b]
          antennta_state := AntennaState.Idle
          tick_state := TickState.OffTick }
    | _ =>
      { m with antennta_state := AntennaState.Idle, tick_state := TickState.OffTick }

/-- `readable`: whether the TX-pin queue is non-empty. -/
def readable (m : WirelessModemFake) : Bool :=
  !m.from_antenna_buffer.isEmpty

/-- `writable`: always true. -/
def writable (_m : WirelessModemFake) : Bool :=
  true

/-- `WirelessModemFake::read`: for each vacant place of the buffer, pop
the TX pin; on `some` overwrite the place and count it.  Returns the
final modem, the buffer contents, and the count.  Never fails. -/
def read (m : WirelessModemFake) (buf : List Nat) : WirelessModemFake × List Nat × Nat :=
  match buf with
  | [] => (m, [], 0)
  | x :: rest =>
    match get_from_tx_pin m with
    | (m1, ob) =>
      let r := read m1 rest
      match ob with
      | none => (r.1, x :: r.2.1, r.2.2)
      | some b => (r.1, b :: r.2.1, r.2.2 + 1)

/-- `WirelessModemFake::write`: enqueue every byte of the buffer on the
RX pin; returns the count written.  Never fails. -/
def write (m : WirelessModemFake) (buf : List Nat) : WirelessModemFake × Nat :=
  match buf with
  | [] => (m, 0)
  | b :: rest =>
    let r := write (put_to_rx_pin m b) rest
    (r.1, r.2 + 1)

end WirelessModemFake

/-- The broadcast medium (`EtherSimulator`): a named, ordered list of
registered modems and the name remembered from the previous winning
broadcast.  The `Arc<Mutex<Vec<_>>>` device list is modelled as the
list owned by this structure. -/
structure EtherSimulator where
  name : String
  devices : List WirelessModemFake
  last_broadcasted_device : Option String
deriving DecidableEq

namespace EtherSimulator

/-- `EtherSimulator::new`: no devices, no remembered broadcaster. -/
def new (name : String) : EtherSimulator :=
  { name := name, devices := [], last_broadcasted_device := none }

/-- `register_driver`: push a (state-sharing) handle of the driver onto
the device list. -/
def register_driver (e : EtherSimulator) (driver : WirelessModemFake) : EtherSimulator :=
  { e with devices := e.devices ++ [driver] }

/-- `unregister_driver`: the source repeatedly removes the last entry
whose name matches until none is left; the net effect is removing every
entry with the given name, keeping the others in order. -/
def unregister_driver (e : EtherSimulator) (name : String) : EtherSimulator :=
  { e with devices := e.devices.filter (fun d => decide (d.name ≠ name)) }

/-- `get_driver`: a handle to the first registered device with the
given name, if any. -/
def get_driver (e : EtherSimulator) (name : String) : Option WirelessModemFake :=
  e.devices.find? (fun d => decide (d.name = name))

/-- Insertion into the model of `BTreeMap<String, u8>`: an association
list kept strictly sorted by key; inserting an existing key overwrites
its value (`entry(..).and_modify(..).or_insert(..)`). -/
def btreeInsert (k : String) (v : Nat) : List (String × Nat) → List (String × Nat)
  | [] => [(k, v)]
  | (k1, v1) :: rest =>
    if k < k1 then (k, v) :: (k1, v1) :: rest
    else if k = k1 then (k, v) :: rest
    else (k1, v1) :: btreeInsert k v rest

/-- The collection loop of `get_current_byte`: ask every device for its
network-side byte in registration order and fold the `some` results
into the name-keyed map.  Propagates the modem's off-tick panic. -/
def collect_broadcasts : List WirelessModemFake → List (String × Nat) →
    Option (List (String × Nat))
  | [], acc => some acc
  | m :: rest, acc =>
    match WirelessModemFake.get_from_device_network_side m with
    | none => none
    | some none => collect_broadcasts rest acc
    | some (some b) => collect_broadcasts rest (btreeInsert m.name b acc)

/-- `EtherSimulator::get_current_byte`: collect broadcasts into the
name-keyed map; if a previous broadcaster is remembered and the map has
more than one entry, drop that broadcaster's entry; the first entry of
the (sorted) map wins, its name is remembered and its byte returned;
an empty map clears the memory and yields nothing. -/
def get_current_byte (e : EtherSimulator) : Option (EtherSimulator × Option Nat) :=
  match collect_broadcasts e.devices [] with
  | none => none
  | some data0 =>
    let data :=
      match e.last_broadcasted_device with
      | none => data0
      | some last =>
        if 1 < data0.length then data0.filter (fun p => decide (p.1 ≠ last)) else data0
    match data with
    | [] => some ({ e with last_broadcasted_device := none }, none)
    | (n, b) :: _ => some ({ e with last_broadcasted_device := some n }, some b)

/-- `start_tick`: fan out to every registered device. -/
def start_tick (e : EtherSimulator) : EtherSimulator :=
  { e with devices := e.devices.map WirelessModemFake.start_tick }

/-- `end_tick`: fan out to every registered device. -/
def end_tick (e : EtherSimulator) : EtherSimulator :=
  { e with devices := e.devices.map WirelessModemFake.end_tick }

/-- Delivery loop of `simulate`: `put_to_device_network_side` on every
registered device, propagating the off-tick panic. -/
def put_all : List WirelessModemFake → Nat → Option (List WirelessModemFake)
  | [], _ => some []
  | m :: rest, b =>
    match WirelessModemFake.put_to_device_network_side m b with
    | none => none
    | some m1 =>
      match put_all rest b with
      | none => none
      | some rest1 => some (m1 :: rest1)

/-- `EtherSimulator::simulate`: one propagation step — pick the current
byte, then (when a byte survived) deliver it to every registered
device. -/
def simulate (e : EtherSimulator) : Option EtherSimulator :=
  match get_current_byte e with
  | none => none
  | some (e1, none) => some e1
  | some (e1, some b) =>
    match put_all e1.devices b with
    | none => none
    | some devs => some { e1 with devices := devs }

/-- One driving cycle of the caller-driven (or worker) loop:
`start_tick`, `simulate`, `end_tick` on one ether. -/
def tick_cycle (e : EtherSimulator) : Option EtherSimulator :=
  match simulate (start_tick e) with
  | none => none
  | some e1 => some (end_tick e1)

/-- Iterate `tick_cycle`. -/
def run_cycles : Nat → EtherSimulator → Option EtherSimulator
  | 0, e => some e
  | n + 1, e =>
    match tick_cycle e with
    | none => none
    | some e1 => run_cycles n e1

end EtherSimulator

/-- Model of a family of `EtherSimulator` handles produced by
`EtherSimulator::clone`.  `clone` wraps the device list in an `Arc`
shared by every handle, but copies `name` and — in particular —
`last_broadcasted_device` by value, so each handle carries its own
private pair.  `shared_devices` is the single `Arc` target and
`handles` the per-handle `(name, last_broadcasted_device)` pairs. -/
structure EtherHandles where
  shared_devices : List WirelessModemFake
  handles : List (String × Option String)
deriving DecidableEq

namespace EtherHandles

/-- `EtherSimulator::clone` through handle `i`: the new handle shares
the device list and receives value copies of `name` and
`last_broadcasted_device`. -/
def handle_clone (w : EtherHandles) (i : Nat) : Option EtherHandles :=
  match w.handles.get? i with
  | none => none
  | some h => some { w with handles := w.handles ++ [h] }

/-- `register_driver` invoked through handle `i`: appends to the shared
device list, visible through every handle. -/
def handle_register (w : EtherHandles) (i : Nat) (m : WirelessModemFake) :
    Option EtherHandles :=
  match w.handles.get? i with
  | none => none
  | some _ => some { w with shared_devices := w.shared_devices ++ [m] }

/-- `simulate` invoked through handle `i`: runs on the shared device
list and handle `i`'s own `last_broadcasted_device`; writes the device
list back to the shared store and the updated broadcaster name back
into handle `i` only. -/
def handle_simulate (w : EtherHandles) (i : Nat) : Option EtherHandles :=
  match w.handles.get? i with
  | none => none
  | some (nm, lb) =>
    match EtherSimulator.simulate
        { name := nm, devices := w.shared_devices, last_broadcasted_device := lb } with
    | none => none
    | some e1 =>
      some { shared_devices := e1.devices,
             handles := w.handles.set i (nm, e1.last_broadcasted_device) }

end EtherHandles

/-- `NetworkSimulator`: the optional ether list (`RefCell<Option<Vec<_>>>`,
present while configuring), the tick period, the optional worker handle
(its `JoinHandle<Vec<EtherSimulator>>` is modelled as the ether list the
worker owns and will return at join; the worker's wall-clock tick loop
itself is concurrency outside this sequential model), and the shared
stop flag. -/
structure NetworkSimulator where
  ethers : Option (List EtherSimulator)
  ms_per_tick : Nat
  simulation_thread_handle : Option (List EtherSimulator)
  thread_killer : Bool
deriving DecidableEq

namespace NetworkSimulator

/-- `NetworkSimulator::new`: empty ether list, no worker, stop flag
down. -/
def new (ms_per_tick : Nat) : NetworkSimulator :=
  { ethers := some []
    ms_per_tick := ms_per_tick
    simulation_thread_handle := none
    thread_killer := false }

/-- `create_ether`: push a fresh ether; panics (`none`) when the worker
owns the list. -/
def create_ether (s : NetworkSimulator) (name : String) : Option NetworkSimulator :=
  match s.ethers with
  | none => none
  | some l => some { s with ethers := some (l ++ [EtherSimulator.new name]) }

/-- `get_ether`: a handle to the first ether with the given name;
panics (`none`) when the worker owns the list.  The inner option is the
benign not-found result. -/
def get_ether (s : NetworkSimulator) (name : String) :
    Option (Option EtherSimulator) :=
  match s.ethers with
  | none => none
  | some l => some (l.find? (fun e => decide (e.name = name)))

/-- `NetworkSimulator::start_tick`: fan out to every ether; panics
(`none`) when the worker owns the list. -/
def start_tick (s : NetworkSimulator) : Option NetworkSimulator :=
  match s.ethers with
  | none => none
  | some l => some { s with ethers := some (l.map EtherSimulator.start_tick) }

/-- `NetworkSimulator::end_tick`: fan out to every ether; panics
(`none`) when the worker owns the list. -/
def end_tick (s : NetworkSimulator) : Option NetworkSimulator :=
  match s.ethers with
  | none => none
  | some l => some { s with ethers := some (l.map EtherSimulator.end_tick) }

/-- Simulate every ether in order, propagating a modem panic. -/
def simulate_all : List EtherSimulator → Option (List EtherSimulator)
  | [] => some []
  | e :: rest =>
    match EtherSimulator.simulate e with
    | none => none
    | some e1 =>
      match simulate_all rest with
      | none => none
      | some rest1 => some (e1 :: rest1)

/-- `NetworkSimulator::simulate`: fan out to every ether; panics
(`none`) when the worker owns the list, and propagates any modem
off-tick panic. -/
def simulate (s : NetworkSimulator) : Option NetworkSimulator :=
  match s.ethers with
  | none => none
  | some l =>
    match simulate_all l with
    | none => none
    | some l1 => some { s with ethers := some l1 }

/-- `start_simulation_thread`: panics when a worker is already present;
otherwise resets the stop flag, moves the ether list out (`take().unwrap()`)
and into the worker. -/
def start_simulation_thread (s : NetworkSimulator) : Option NetworkSimulator :=
  match s.simulation_thread_handle with
  | some _ => none
  | none =>
    match s.ethers with
    | none => none
    | some l =>
      some { s with
               ethers := none
               simulation_thread_handle := some l
               thread_killer := false }

/-- `stop_simulation_thread`: panics when no worker is present;
otherwise raises the stop flag, joins the worker and reclaims the ether
list it returns. -/
def stop_simulation_thread (s : NetworkSimulator) : Option NetworkSimulator :=
  match s.simulation_thread_handle with
  | none => none
  | some l =>
    some { s with
             ethers := some l
             simulation_thread_handle := none
             thread_killer := true }

/-- Registration of a modem into one of the simulator's ethers, the way
client code does it: `get_ether(name)` (panics while the worker runs)
followed by `register_driver` through the returned handle; the handle
shares the ether's `Arc` device list, so the registration lands in the
simulator's own ether.  The first ether with a matching name receives
the driver; a missing name leaves the list unchanged (the caller's
unwrap of `get_ether`'s inner option is not modelled here). -/
def register_into : List EtherSimulator → String → WirelessModemFake →
    List EtherSimulator
  | [], _, _ => []
  | e :: rest, ename, m =>
    if e.name = ename then EtherSimulator.register_driver e m :: rest
    else e :: register_into rest ename m

/-- See `register_into`: `get_ether` plus `register_driver` through the
shared handle. -/
def ns_register_driver (s : NetworkSimulator) (ename : String)
    (m : WirelessModemFake) : Option NetworkSimulator :=
  match s.ethers with
  | none => none
  | some l => some { s with ethers := some (register_into l ename m) }

/-- The `Configuring` state of the spec's state machine: ether list
present, worker handle absent. -/
def Configuring (s : NetworkSimulator) : Prop :=
  s.ethers.isSome ∧ s.simulation_thread_handle = none

/-- The `Running` state of the spec's state machine: ether list absent,
worker handle present. -/
def Running (s : NetworkSimulator) : Prop :=
  s.ethers = none ∧ s.simulation_thread_handle.isSome

/-- The presence/absence invariant: always in exactly one of the two
states. -/
def StateInv (s : NetworkSimulator) : Prop :=
  Configuring s ∨ Running s

end NetworkSimulator

/-!
Spec-side rendering of the propagation algorithm of §4.2, written from
the spec's words and independent of the `BTreeMap` data structure, to
be compared with `EtherSimulator.get_current_byte` / `simulate`.
-/

/-- The byte a modem that is inside a tick offers to the ether: the
transmitted byte when its antenna is `Transmit`, nothing otherwise. -/
def broadcast_byte (m : WirelessModemFake) : Option Nat :=
  match m.antennta_state with
  | AntennaState.Transmit b => some b
  | _ => none

/-- Spec side: the `(name, byte)` contributions of the broadcasting
devices, in registration order. -/
def specBroadcastPairs (devs : List WirelessModemFake) : List (String × Nat) :=
  devs.filterMap (fun m => (broadcast_byte m).map (fun b => (m.name, b)))

/-- Association-list lookup by name (first match). -/
def alookup (k : String) : List (String × Nat) → Option Nat
  | [] => none
  | (k1, v) :: rest => if k = k1 then some v else alookup k rest

/-- Spec side: the names present in the name-keyed map (duplicates
collapsed). -/
def specMapNames (devs : List WirelessModemFake) : List String :=
  ((specBroadcastPairs devs).map Prod.fst).dedup

/-- Spec side: the byte the map holds for a name — last write wins, so
the lookup runs over the reversed contribution list. -/
def specMapLookup (devs : List WirelessModemFake) (k : String) : Option Nat :=
  alookup k (specBroadcastPairs devs).reverse

/-- Spec side, §4.2 steps 1–4: build the map; if it holds more than one
name and a previous broadcaster is remembered, remove that name; the
lexicographically first remaining name wins and is remembered, its byte
is the delivered byte; an empty map clears the memory and delivers
nothing.  Returns (new remembered name, delivered byte). -/
def specPropagation (devs : List WirelessModemFake) (last : Option String) :
    Option String × Option Nat :=
  let names := specMapNames devs
  let remaining :=
    match last with
    | none => names
    | some l => if 1 < names.length then names.filter (fun n => decide (n ≠ l)) else names
  match remaining.min? with
  | none => (none, none)
  | some w => (some w, specMapLookup devs w)

/-- Spec side, §4.2 step 5: the effect of delivering byte `b` to a
device that is inside a tick (`put_to_device_network_side` without the
phase guard): a transmitting device ignores it, any other device's
antenna becomes `Receive b`. -/
def deliver_byte (b : Nat) (m : WirelessModemFake) : WirelessModemFake :=
  match m.antennta_state with
  | AntennaState.Transmit _ => m
  | _ => { m with antennta_state := AntennaState.Receive b }

/-!
Concrete scenario states used by the end-to-end claims.
-/

/-- A two-modem ether: modem `na` has `sa` queued on its RX pin and an
empty TX queue, modem `nb` has nothing queued and `racc` already on its
TX queue; both are off tick and idle. -/
def two_modem_ether (ename na nb : String) (sa racc : List Nat)
    (lb : Option String) : EtherSimulator :=
  { name := ename
    devices :=
      [ { name := na
          tick_state := TickState.OffTick
          from_antenna_buffer := []
          to_antenna_buffer := sa
          antennta_state := AntennaState.Idle }
      , { name := nb
          tick_state := TickState.OffTick
          from_antenna_buffer := racc
          to_antenna_buffer := []
          antennta_state := AntennaState.Idle } ]
    last_broadcasted_device := lb }

/-- A three-modem ether for the collision scenario: senders `na` and
`nb` with RX supplies `as_` and `bs`, and a silent receiver `nc` whose
TX queue already holds `cacc`; everyone off tick and idle. -/
def collision_ether (ename na nb nc : String) (as_ bs cacc : List Nat)
    (lb : Option String) : EtherSimulator :=
  { name := ename
    devices :=
      [ { name := na
          tick_state := TickState.OffTick
          from_antenna_buffer := []
          to_antenna_buffer := as_
          antennta_state := AntennaState.Idle }
      , { name := nb
          tick_state := TickState.OffTick
          from_antenna_buffer := []
          to_antenna_buffer := bs
          antennta_state := AntennaState.Idle }
      , { name := nc
          tick_state := TickState.OffTick
          from_antenna_buffer := cacc
          to_antenna_buffer := []
          antennta_state := AntennaState.Idle } ]
    last_broadcasted_device := lb }

/-- The byte sequence the collision policy delivers over `n` ticks when
two senders with supplies `as_` and `bs` broadcast continuously: the
winners strictly alternate, starting with the sender whose turn it is
(`turnA`), and each tick consumes one byte of BOTH supplies (the
loser's byte is dropped by `end_tick`). -/
def altDeliveries : Bool → List Nat → List Nat → Nat → List Nat
  | _, _, _, 0 => []
  | true, x :: as_, _ :: bs, n + 1 => x :: altDeliveries false as_ bs n
  | false, _ :: as_, y :: bs, n + 1 => y :: altDeliveries true as_ bs n
  | _, _, _, _ + 1 => []

/-- The collection loop of `get_current_byte` restricted to devices
that are inside a tick, where it cannot panic. -/
def collect_total : List WirelessModemFake → List (String × Nat) → List (String × Nat)
  | [], acc => acc
  | m :: rest, acc =>
    match broadcast_byte m with
    | none => collect_total rest acc
    | some b => collect_total rest (EtherSimulator.btreeInsert m.name b acc)

/-- The claim C9 invariant: whenever a modem is off tick its antenna is
idle, so no latched or received byte survives between ticks. -/
def ModemIdleInv (m : WirelessModemFake) : Prop :=
  m.tick_state = TickState.OffTick → m.antennta_state = AntennaState.Idle



/-!
Theorems.
-/

/-- C3: with the modem in a tick, `put_to_device_network_side b` leaves
the state unchanged when the antenna is transmitting (the byte is
dropped) and otherwise sets the antenna to `Receive b`, overwriting any
earlier `Receive`; off tick the call panics and never returns
normally. -/
theorem put_network_side_contract (m : WirelessModemFake) (b : Nat) :
    (m.tick_state = TickState.OffTick →
      WirelessModemFake.put_to_device_network_side m b = none) ∧
    (m.tick_state = TickState.InTick →
      ((∃ b0, m.antennta_state = AntennaState.Transmit b0) →
        WirelessModemFake.put_to_device_network_side m b = some m) ∧
      ((∀ b0, m.antennta_state ≠ AntennaState.Transmit b0) →
        WirelessModemFake.put_to_device_network_side m b =
          some { m with antennta_state := AntennaState.Receive b })) := by
  constructor
  · intro h
    simp [WirelessModemFake.put_to_device_network_side, h]
  · intro h
    constructor
    · rintro ⟨b0, hb⟩
      simp [WirelessModemFake.put_to_device_network_side, h, hb]
    · intro hb
      cases ha : m.antennta_state with
      | Transmit b0 => exact absurd ha (hb b0)
      | Receive b0 => simp [WirelessModemFake.put_to_device_network_side, h, ha]
      | Idle => simp [WirelessModemFake.put_to_device_network_side, h, ha]

/-- Witness for C3: the off-tick panic and the overwrite on a fresh
in-tick modem, both at concrete inputs. -/
theorem put_network_side_contract_witness :
    WirelessModemFake.put_to_device_network_side (WirelessModemFake.new "m") 7 = none ∧
    WirelessModemFake.put_to_device_network_side
        (WirelessModemFake.start_tick (WirelessModemFake.new "m")) 7 =
      some { WirelessModemFake.start_tick (WirelessModemFake.new "m") with
               antennta_state := AntennaState.Receive 7 } := by
  constructor
  · exact (put_network_side_contract (WirelessModemFake.new "m") 7).1 rfl
  · refine ((put_network_side_contract
      (WirelessModemFake.start_tick (WirelessModemFake.new "m")) 7).2 rfl).2 ?_
    intro b0 h
    simp [WirelessModemFake.start_tick, WirelessModemFake.new] at h

/-- C9: a fresh modem is off tick with an idle antenna, and every
state-changing modem operation preserves the implication `off tick →
antenna idle`; `readable`, `writable` and `get_from_device_network_side`
are read-only in the embedding (they take the state and return a value),
so they preserve it trivially. -/
theorem offtick_antenna_idle (s : String) (m : WirelessModemFake) (b : Nat)
    (buf : List Nat) (hm : ModemIdleInv m) :
    ModemIdleInv (WirelessModemFake.new s) ∧
    ModemIdleInv (WirelessModemFake.start_tick m) ∧
    ModemIdleInv (WirelessModemFake.end_tick m) ∧
    ModemIdleInv (WirelessModemFake.put_to_rx_pin m b) ∧
    ModemIdleInv (WirelessModemFake.get_from_tx_pin m).1 ∧
    ModemIdleInv (WirelessModemFake.read m buf).1 ∧
    ModemIdleInv (WirelessModemFake.write m buf).1 ∧
    (∀ m1, WirelessModemFake.put_to_device_network_side m b = some m1 →
      ModemIdleInv m1) := by
  have hnew : ModemIdleInv (WirelessModemFake.new s) := by
    intro _; rfl
  have hstart : ∀ m0 : WirelessModemFake, ModemIdleInv (WirelessModemFake.start_tick m0) := by
    intro m0
    unfold WirelessModemFake.start_tick
    cases h : m0.tick_state with
    | InTick =>
      intro hOff
      exact absurd (h ▸ hOff) (by simp)
    | OffTick =>
      cases m0.to_antenna_buffer with
      | nil => intro hOff; cases hOff
      | cons x rest => intro hOff; cases hOff
  have hend : ∀ m0 : WirelessModemFake, ModemIdleInv m0 →
      ModemIdleInv (WirelessModemFake.end_tick m0) := by
    intro m0 h0
    unfold WirelessModemFake.end_tick
    cases h : m0.tick_state with
    | OffTick => exact fun _ => h0 h
    | InTick =>
      cases m0.antennta_state with
      | Receive b0 => intro _; rfl
      | Transmit b0 => intro _; rfl
      | Idle => intro _; rfl
  have hrx : ModemIdleInv (WirelessModemFake.put_to_rx_pin m b) := by
    intro h; exact hm h
  have htx : ∀ m0 : WirelessModemFake, ModemIdleInv m0 →
      ModemIdleInv (WirelessModemFake.get_from_tx_pin m0).1 := by
    intro m0 h0
    unfold WirelessModemFake.get_from_tx_pin
    cases m0.from_antenna_buffer with
    | nil => exact h0
    | cons x rest => intro h; exact h0 h
  have hread : ∀ (buf : List Nat) (m0 : WirelessModemFake), ModemIdleInv m0 →
      ModemIdleInv (WirelessModemFake.read m0 buf).1 := by
    intro buf
    induction buf with
    | nil => intro m0 h0; exact h0
    | cons x rest ih =>
      intro m0 h0
      unfold WirelessModemFake.read
      cases hq : m0.from_antenna_buffer with
      | nil =>
        simp only [WirelessModemFake.get_from_tx_pin, hq]
        exact ih m0 h0
      | cons y t =>
        simp only [WirelessModemFake.get_from_tx_pin, hq]
        exact ih _ (fun h => h0 h)
  have hwrite : ∀ (buf : List Nat) (m0 : WirelessModemFake), ModemIdleInv m0 →
      ModemIdleInv (WirelessModemFake.write m0 buf).1 := by
    intro buf
    induction buf with
    | nil => intro m0 h0; exact h0
    | cons x rest ih =>
      intro m0 h0
      unfold WirelessModemFake.write
      exact ih _ (fun h => h0 h)
  have hput : ∀ m1, WirelessModemFake.put_to_device_network_side m b = some m1 →
      ModemIdleInv m1 := by
    intro m1 h1
    unfold WirelessModemFake.put_to_device_network_side at h1
    cases h : m.tick_state with
    | OffTick => rw [h] at h1; cases h1
    | InTick =>
      rw [h] at h1
      cases ha : m.antennta_state with
      | Transmit b0 =>
        rw [ha] at h1
        cases h1
        intro hOff
        rw [h] at hOff
        cases hOff
      | Receive b0 =>
        rw [ha] at h1
        cases h1
        intro hOff
        simp [h] at hOff
      | Idle =>
        rw [ha] at h1
        cases h1
        intro hOff
        simp [h] at hOff
  exact ⟨hnew, hstart m, hend m hm, hrx, htx m hm, hread buf m hm, hwrite buf m hm, hput⟩

/-- Witness for C9: the invariant instantiated on a fresh modem. -/
theorem offtick_antenna_idle_witness :
    ModemIdleInv (WirelessModemFake.start_tick (WirelessModemFake.new "w")) ∧
    ModemIdleInv (WirelessModemFake.end_tick (WirelessModemFake.new "w")) :=
  ⟨(offtick_antenna_idle "w" (WirelessModemFake.new "w") 0 []
      (fun _ => rfl)).2.1,
   (offtick_antenna_idle "w" (WirelessModemFake.new "w") 0 []
      (fun _ => rfl)).2.2.1⟩

/-- C10: the pin-side operations are total in every phase and touch
nothing beyond their own queue: `put_to_rx_pin` only appends to the
RX queue, `get_from_tx_pin` only pops the head of the TX queue (and
returns it), and `readable` only reports whether the TX queue is
non-empty; phase, antenna and the other queue are untouched (and
`readable`, being a pure observer in the embedding, modifies nothing). -/
theorem pin_ops_frame (m : WirelessModemFake) (b : Nat) :
    (WirelessModemFake.put_to_rx_pin m b).to_antenna_buffer = m.to_antenna_buffer ++ [b] ∧
    (WirelessModemFake.put_to_rx_pin m b).from_antenna_buffer = m.from_antenna_buffer ∧
    (WirelessModemFake.put_to_rx_pin m b).tick_state = m.tick_state ∧
    (WirelessModemFake.put_to_rx_pin m b).antennta_state = m.antennta_state ∧
    (WirelessModemFake.put_to_rx_pin m b).name = m.name ∧
    (WirelessModemFake.get_from_tx_pin m).1.from_antenna_buffer = m.from_antenna_buffer.tail ∧
    (WirelessModemFake.get_from_tx_pin m).2 = m.from_antenna_buffer.head? ∧
    (WirelessModemFake.get_from_tx_pin m).1.to_antenna_buffer = m.to_antenna_buffer ∧
    (WirelessModemFake.get_from_tx_pin m).1.tick_state = m.tick_state ∧
    (WirelessModemFake.get_from_tx_pin m).1.antennta_state = m.antennta_state ∧
    (WirelessModemFake.get_from_tx_pin m).1.name = m.name ∧
    WirelessModemFake.readable m = !m.from_antenna_buffer.isEmpty := by
  cases hq : m.from_antenna_buffer with
  | nil =>
    simp [WirelessModemFake.put_to_rx_pin, WirelessModemFake.get_from_tx_pin,
      WirelessModemFake.readable, hq]
  | cons x rest =>
    simp [WirelessModemFake.put_to_rx_pin, WirelessModemFake.get_from_tx_pin,
      WirelessModemFake.readable, hq]

/-- C7: reading into a buffer of length `n` with `k` bytes queued on
the TX pin fills the first `min n k` buffer positions with the first
`min n k` queued bytes in FIFO order, leaves the remaining positions
untouched, returns `min n k`, and never fails (the operation is a total
function). -/
theorem read_fills_min (m : WirelessModemFake) (buf : List Nat) :
    (WirelessModemFake.read m buf).2.2 =
      min buf.length m.from_antenna_buffer.length ∧
    (WirelessModemFake.read m buf).2.1 =
      m.from_antenna_buffer.take (min buf.length m.from_antenna_buffer.length) ++
        buf.drop (min buf.length m.from_antenna_buffer.length) ∧
    (WirelessModemFake.read m buf).1 =
      { m with from_antenna_buffer :=
          m.from_antenna_buffer.drop (min buf.length m.from_antenna_buffer.length) } := by
  induction buf generalizing m with
  | nil =>
    refine ⟨by simp [WirelessModemFake.read], by simp [WirelessModemFake.read], ?_⟩
    simp [WirelessModemFake.read]
  | cons x rest ih =>
    cases hq : m.from_antenna_buffer with
    | nil =>
      have h0 : WirelessModemFake.get_from_tx_pin m = (m, none) := by
        simp [WirelessModemFake.get_from_tx_pin, hq]
      have := ih m
      rw [hq] at this
      simp only [WirelessModemFake.read, h0]
      refine ⟨by simpa using this.1, ?_, ?_⟩
      · simp [hq, this.2.1]
      · simpa [hq] using this.2.2
    | cons y t =>
      have h0 : WirelessModemFake.get_from_tx_pin m =
          ({ m with from_antenna_buffer := t }, some y) := by
        simp [WirelessModemFake.get_from_tx_pin, hq]
      have := ih { m with from_antenna_buffer := t }
      simp only [WirelessModemFake.read, h0]
      refine ⟨?_, ?_, ?_⟩
      · simpa [hq, Nat.succ_min_succ] using this.1
      · simpa [hq, Nat.succ_min_succ] using this.2.1
      · simpa [hq, Nat.succ_min_succ] using this.2.2

/-- C5: a `NetworkSimulator` starts in `Configuring` with an empty
ether list; `Configuring` and `Running` exclude each other;
`create_ether`, `start_tick`, `end_tick`, `simulate` and driver
registration through `get_ether` preserve the presence/absence pattern
whenever they return (`get_ether` itself returns a value and no state);
only `start_simulation_thread` and `stop_simulation_thread` switch
between the two states. -/
theorem ns_state_machine (ms : Nat) :
    (NetworkSimulator.Configuring (NetworkSimulator.new ms) ∧
      (NetworkSimulator.new ms).ethers = some []) ∧
    (∀ s, ¬ (NetworkSimulator.Configuring s ∧ NetworkSimulator.Running s)) ∧
    (∀ s nm s1, NetworkSimulator.create_ether s nm = some s1 →
      (NetworkSimulator.Configuring s ↔ NetworkSimulator.Configuring s1) ∧
      (NetworkSimulator.Running s ↔ NetworkSimulator.Running s1)) ∧
    (∀ s s1, NetworkSimulator.start_tick s = some s1 →
      (NetworkSimulator.Configuring s ↔ NetworkSimulator.Configuring s1) ∧
      (NetworkSimulator.Running s ↔ NetworkSimulator.Running s1)) ∧
    (∀ s s1, NetworkSimulator.end_tick s = some s1 →
      (NetworkSimulator.Configuring s ↔ NetworkSimulator.Configuring s1) ∧
      (NetworkSimulator.Running s ↔ NetworkSimulator.Running s1)) ∧
    (∀ s s1, NetworkSimulator.simulate s = some s1 →
      (NetworkSimulator.Configuring s ↔ NetworkSimulator.Configuring s1) ∧
      (NetworkSimulator.Running s ↔ NetworkSimulator.Running s1)) ∧
    (∀ s nm m s1, NetworkSimulator.ns_register_driver s nm m = some s1 →
      (NetworkSimulator.Configuring s ↔ NetworkSimulator.Configuring s1) ∧
      (NetworkSimulator.Running s ↔ NetworkSimulator.Running s1)) ∧
    (∀ s s1, NetworkSimulator.start_simulation_thread s = some s1 →
      NetworkSimulator.Configuring s ∧ NetworkSimulator.Running s1) ∧
    (∀ s s1, NetworkSimulator.stop_simulation_thread s = some s1 →
      NetworkSimulator.StateInv s →
      NetworkSimulator.Running s ∧ NetworkSimulator.Configuring s1) := by
  refine ⟨⟨⟨rfl, rfl⟩, rfl⟩, ?_, ?_, ?_, ?_, ?_, ?_, ?_, ?_⟩
  · rintro s ⟨⟨hc1, _⟩, ⟨hr1, _⟩⟩
    rw [hr1] at hc1
    simp at hc1
  · intro s nm s1 h
    unfold NetworkSimulator.create_ether at h
    cases he : s.ethers with
    | none => rw [he] at h; cases h
    | some l =>
      rw [he] at h
      cases h
      constructor
      · exact ⟨fun hc => ⟨rfl, hc.2⟩, fun hc => ⟨by simp [he], hc.2⟩⟩
      · constructor
        · rintro ⟨h1, _⟩; rw [he] at h1; cases h1
        · rintro ⟨h1, _⟩; cases h1
  · intro s s1 h
    unfold NetworkSimulator.start_tick at h
    cases he : s.ethers with
    | none => rw [he] at h; cases h
    | some l =>
      rw [he] at h
      cases h
      constructor
      · exact ⟨fun hc => ⟨rfl, hc.2⟩, fun hc => ⟨by simp [he], hc.2⟩⟩
      · constructor
        · rintro ⟨h1, _⟩; rw [he] at h1; cases h1
        · rintro ⟨h1, _⟩; cases h1
  · intro s s1 h
    unfold NetworkSimulator.end_tick at h
    cases he : s.ethers with
    | none => rw [he] at h; cases h
    | some l =>
      rw [he] at h
      cases h
      constructor
      · exact ⟨fun hc => ⟨rfl, hc.2⟩, fun hc => ⟨by simp [he], hc.2⟩⟩
      · constructor
        · rintro ⟨h1, _⟩; rw [he] at h1; cases h1
        · rintro ⟨h1, _⟩; cases h1
  · intro s s1 h
    unfold NetworkSimulator.simulate at h
    cases he : s.ethers with
    | none => rw [he] at h; cases h
    | some l =>
      rw [he] at h
      dsimp only at h
      cases hs : NetworkSimulator.simulate_all l with
      | none => rw [hs] at h; cases h
      | some l1 =>
        rw [hs] at h
        cases h
        constructor
        · exact ⟨fun hc => ⟨rfl, hc.2⟩, fun hc => ⟨by simp [he], hc.2⟩⟩
        · constructor
          · rintro ⟨h1, _⟩; rw [he] at h1; cases h1
          · rintro ⟨h1, _⟩; cases h1
  · intro s nm m s1 h
    unfold NetworkSimulator.ns_register_driver at h
    cases he : s.ethers with
    | none => rw [he] at h; cases h
    | some l =>
      rw [he] at h
      cases h
      constructor
      · exact ⟨fun hc => ⟨rfl, hc.2⟩, fun hc => ⟨by simp [he], hc.2⟩⟩
      · constructor
        · rintro ⟨h1, _⟩; rw [he] at h1; cases h1
        · rintro ⟨h1, _⟩; cases h1
  · intro s s1 h
    unfold NetworkSimulator.start_simulation_thread at h
    cases hh : s.simulation_thread_handle with
    | some l => rw [hh] at h; cases h
    | none =>
      rw [hh] at h
      cases he : s.ethers with
      | none => rw [he] at h; cases h
      | some l =>
        rw [he] at h
        cases h
        exact ⟨⟨by simp [he], hh⟩, ⟨rfl, rfl⟩⟩
  · intro s s1 h hinv
    unfold NetworkSimulator.stop_simulation_thread at h
    cases hh : s.simulation_thread_handle with
    | none => rw [hh] at h; cases h
    | some l =>
      rw [hh] at h
      cases h
      have hrun : NetworkSimulator.Running s := by
        cases hinv with
        | inl hc => rw [hc.2] at hh; cases hh
        | inr hr => exact hr
      exact ⟨hrun, ⟨rfl, rfl⟩⟩

/-- Witness for C5: the create clause applied to a fresh simulator, and
the start clause switching it to `Running`. -/
theorem ns_state_machine_witness :
    ((NetworkSimulator.Configuring (NetworkSimulator.new 5) ↔
        NetworkSimulator.Configuring
          { ethers := some [EtherSimulator.new "e"], ms_per_tick := 5,
            simulation_thread_handle := none, thread_killer := false }) ∧
      (NetworkSimulator.Running (NetworkSimulator.new 5) ↔
        NetworkSimulator.Running
          { ethers := some [EtherSimulator.new "e"], ms_per_tick := 5,
            simulation_thread_handle := none, thread_killer := false })) ∧
    (NetworkSimulator.Configuring (NetworkSimulator.new 5) ∧
      NetworkSimulator.Running
        { ethers := none, ms_per_tick := 5,
          simulation_thread_handle := some [], thread_killer := false }) :=
  ⟨(ns_state_machine 5).2.2.1 (NetworkSimulator.new 5) "e" _ rfl,
   (ns_state_machine 5).2.2.2.2.2.2.2.1 (NetworkSimulator.new 5) _ rfl⟩

/-- With every device inside a tick, the collection loop cannot panic
and equals its total version. -/
theorem collect_broadcasts_eq_total (devs : List WirelessModemFake)
    (h : ∀ m ∈ devs, m.tick_state = TickState.InTick) (acc : List (String × Nat)) :
    EtherSimulator.collect_broadcasts devs acc = some (collect_total devs acc) := by
  induction devs generalizing acc with
  | nil => rfl
  | cons m rest ih =>
    have hm : m.tick_state = TickState.InTick := h m (by simp)
    have hrest : ∀ m0 ∈ rest, m0.tick_state = TickState.InTick :=
      fun m0 hm0 => h m0 (List.mem_cons_of_mem _ hm0)
    have hg : WirelessModemFake.get_from_device_network_side m = some (broadcast_byte m) := by
      unfold WirelessModemFake.get_from_device_network_side broadcast_byte
      rw [hm]
      cases m.antennta_state <;> rfl
    unfold EtherSimulator.collect_broadcasts collect_total
    rw [hg]
    cases hb : broadcast_byte m with
    | none => exact ih hrest acc
    | some b => exact ih hrest _

/-- With a device inside a tick, `put_to_device_network_side` succeeds
and equals the spec's delivery effect. -/
theorem put_network_side_eq_deliver (m : WirelessModemFake) (b : Nat)
    (hm : m.tick_state = TickState.InTick) :
    WirelessModemFake.put_to_device_network_side m b = some (deliver_byte b m) := by
  unfold WirelessModemFake.put_to_device_network_side deliver_byte
  rw [hm]
  cases m.antennta_state <;> rfl

/-- With every device inside a tick, the delivery loop cannot panic and
maps the spec's delivery effect over the device list. -/
theorem put_all_eq_map (devs : List WirelessModemFake) (b : Nat)
    (h : ∀ m ∈ devs, m.tick_state = TickState.InTick) :
    EtherSimulator.put_all devs b = some (devs.map (deliver_byte b)) := by
  induction devs with
  | nil => rfl
  | cons m rest ih =>
    have hm : m.tick_state = TickState.InTick := h m (by simp)
    unfold EtherSimulator.put_all
    rw [put_network_side_eq_deliver m b hm,
      ih (fun m0 hm0 => h m0 (List.mem_cons_of_mem _ hm0))]
    rfl

/-- With every device inside a tick, `get_current_byte` succeeds and
only updates the remembered broadcaster name. -/
theorem get_current_byte_shape (e : EtherSimulator)
    (h : ∀ m ∈ e.devices, m.tick_state = TickState.InTick) :
    ∃ lb ob, EtherSimulator.get_current_byte e =
      some ({ e with last_broadcasted_device := lb }, ob) := by
  unfold EtherSimulator.get_current_byte
  rw [collect_broadcasts_eq_total e.devices h []]
  generalize collect_total e.devices [] = data0
  cases hl : e.last_broadcasted_device with
  | none =>
    dsimp only
    cases data0 with
    | nil => exact ⟨none, none, rfl⟩
    | cons p rest =>
      obtain ⟨n, b⟩ := p
      exact ⟨some n, some b, rfl⟩
  | some last =>
    dsimp only
    by_cases hlen : 1 < data0.length
    · rw [if_pos hlen]
      cases hfil : data0.filter (fun p => decide (p.1 ≠ last)) with
      | nil => exact ⟨none, none, rfl⟩
      | cons p rest =>
        obtain ⟨n, b⟩ := p
        exact ⟨some n, some b, rfl⟩
    · rw [if_neg hlen]
      cases data0 with
      | nil => exact ⟨none, none, rfl⟩
      | cons p rest =>
        obtain ⟨n, b⟩ := p
        exact ⟨some n, some b, rfl⟩

/-- With every device inside a tick, one ether propagation step cannot
panic. -/
theorem ether_simulate_total (e : EtherSimulator)
    (h : ∀ m ∈ e.devices, m.tick_state = TickState.InTick) :
    ∃ e1, EtherSimulator.simulate e = some e1 := by
  obtain ⟨lb, ob, hg⟩ := get_current_byte_shape e h
  unfold EtherSimulator.simulate
  rw [hg]
  cases ob with
  | none => exact ⟨_, rfl⟩
  | some b =>
    dsimp only
    rw [put_all_eq_map e.devices b h]
    exact ⟨_, rfl⟩

/-- With every device of every ether inside a tick, simulating all
ethers cannot panic. -/
theorem simulate_all_total (l : List EtherSimulator)
    (h : ∀ e ∈ l, ∀ m ∈ e.devices, m.tick_state = TickState.InTick) :
    ∃ l1, NetworkSimulator.simulate_all l = some l1 := by
  induction l with
  | nil => exact ⟨[], rfl⟩
  | cons e rest ih =>
    obtain ⟨e1, he1⟩ := ether_simulate_total e (h e (by simp))
    obtain ⟨l1, hl1⟩ := ih (fun e0 he0 => h e0 (List.mem_cons_of_mem _ he0))
    unfold NetworkSimulator.simulate_all
    rw [he1, hl1]
    exact ⟨_, rfl⟩

/-- Counterexample to C6 as stated: a reachable `Configuring` simulator
(fresh simulator, one created ether, one modem registered through the
ether handle) on which `simulate` nevertheless panics, because the
registered modem is off tick and `simulate` must be called between
`start_tick` and `end_tick`. -/
theorem ns_simulate_panics_while_configuring :
    NetworkSimulator.create_ether (NetworkSimulator.new 1) "e" =
      some { ethers := some [EtherSimulator.new "e"], ms_per_tick := 1,
             simulation_thread_handle := none, thread_killer := false } ∧
    NetworkSimulator.ns_register_driver
        { ethers := some [EtherSimulator.new "e"], ms_per_tick := 1,
          simulation_thread_handle := none, thread_killer := false }
        "e" (WirelessModemFake.new "m") =
      some { ethers := some
               [{ name := "e", devices := [WirelessModemFake.new "m"],
                  last_broadcasted_device := none }],
             ms_per_tick := 1, simulation_thread_handle := none,
             thread_killer := false } ∧
    NetworkSimulator.Configuring
      { ethers := some
          [{ name := "e", devices := [WirelessModemFake.new "m"],
             last_broadcasted_device := none }],
        ms_per_tick := 1, simulation_thread_handle := none,
        thread_killer := false } ∧
    NetworkSimulator.simulate
      { ethers := some
          [{ name := "e", devices := [WirelessModemFake.new "m"],
             last_broadcasted_device := none }],
        ms_per_tick := 1, simulation_thread_handle := none,
        thread_killer := false } = none :=
  ⟨rfl, rfl, ⟨rfl, rfl⟩, rfl⟩

/-- C6 (amended): `create_ether`, `get_ether`, `start_tick`, `end_tick`
and `simulate` all panic in the `Running` state; in the `Configuring`
state `create_ether`, `get_ether`, `start_tick` and `end_tick` complete
without a fatal error, and `simulate` completes provided every
registered device of every ether is inside a tick (between `start_tick`
and `end_tick`), the precondition §4.2 puts on `simulate`. -/
theorem ns_ops_phase_contract (s : NetworkSimulator) (nm : String) :
    (NetworkSimulator.Running s →
      NetworkSimulator.create_ether s nm = none ∧
      NetworkSimulator.get_ether s nm = none ∧
      NetworkSimulator.start_tick s = none ∧
      NetworkSimulator.end_tick s = none ∧
      NetworkSimulator.simulate s = none) ∧
    (NetworkSimulator.Configuring s →
      (NetworkSimulator.create_ether s nm).isSome ∧
      (NetworkSimulator.get_ether s nm).isSome ∧
      (NetworkSimulator.start_tick s).isSome ∧
      (NetworkSimulator.end_tick s).isSome ∧
      (∀ l, s.ethers = some l →
        (∀ e ∈ l, ∀ m ∈ e.devices, m.tick_state = TickState.InTick) →
        (NetworkSimulator.simulate s).isSome)) := by
  constructor
  · rintro ⟨he, _⟩
    refine ⟨?_, ?_, ?_, ?_, ?_⟩ <;>
      simp [NetworkSimulator.create_ether, NetworkSimulator.get_ether,
        NetworkSimulator.start_tick, NetworkSimulator.end_tick,
        NetworkSimulator.simulate, he]
  · rintro ⟨he, _⟩
    obtain ⟨l, hl⟩ := Option.isSome_iff_exists.mp he
    refine ⟨?_, ?_, ?_, ?_, ?_⟩
    · simp [NetworkSimulator.create_ether, hl]
    · simp [NetworkSimulator.get_ether, hl]
    · simp [NetworkSimulator.start_tick, hl]
    · simp [NetworkSimulator.end_tick, hl]
    · intro l0 hl0 hInTick
      obtain ⟨l1, hl1⟩ := simulate_all_total l0 hInTick
      simp [NetworkSimulator.simulate, hl0, hl1]

/-- Witness for the amended C6: the five panics on a concrete `Running`
simulator, and normal completion (including `simulate` over the empty
ether list) on a fresh `Configuring` one. -/
theorem ns_ops_phase_contract_witness :
    (NetworkSimulator.create_ether
        { ethers := none, ms_per_tick := 1,
          simulation_thread_handle := some [], thread_killer := false } "x" = none ∧
      NetworkSimulator.get_ether
        { ethers := none, ms_per_tick := 1,
          simulation_thread_handle := some [], thread_killer := false } "x" = none ∧
      NetworkSimulator.start_tick
        { ethers := none, ms_per_tick := 1,
          simulation_thread_handle := some [], thread_killer := false } = none ∧
      NetworkSimulator.end_tick
        { ethers := none, ms_per_tick := 1,
          simulation_thread_handle := some [], thread_killer := false } = none ∧
      NetworkSimulator.simulate
        { ethers := none, ms_per_tick := 1,
          simulation_thread_handle := some [], thread_killer := false } = none) ∧
    (NetworkSimulator.create_ether (NetworkSimulator.new 1) "x").isSome ∧
    (NetworkSimulator.simulate (NetworkSimulator.new 1)).isSome := by
  refine ⟨ns_ops_phase_contract _ "x" |>.1 ⟨rfl, rfl⟩, ?_, ?_⟩
  · exact (ns_ops_phase_contract (NetworkSimulator.new 1) "x").2 ⟨rfl, rfl⟩ |>.1
  · exact ((ns_ops_phase_contract (NetworkSimulator.new 1) "x").2 ⟨rfl, rfl⟩).2.2.2.2
      [] rfl (by simp)

/-- C8, code evaluated at the failing input: the doc of
`EtherSimulator::clone` promises that all internal data is shared, and
C8 accordingly says the `last_broadcaster_name` update of `simulate` is
visible through every handle; but `clone` copies
`last_broadcasted_device` by value.  With two in-tick transmitters "a"
and "b" and one handle cloned from the original, running `simulate`
through the original records broadcaster "a" in the original handle
while the clone still remembers nothing — the two handles disagree. -/
theorem ether_clone_private_last_broadcaster :
    ((EtherHandles.handle_clone
        { shared_devices :=
            [ WirelessModemFake.start_tick
                (WirelessModemFake.put_to_rx_pin (WirelessModemFake.new "a") 1)
            , WirelessModemFake.start_tick
                (WirelessModemFake.put_to_rx_pin (WirelessModemFake.new "b") 2) ]
          handles := [("e", none)] } 0).bind
        (fun w => EtherHandles.handle_simulate w 0)).map EtherHandles.handles =
      some [("e", some "a"), ("e", none)] := by
  have h1 : ¬ ("b" < "a") := by
    simp
    decide
  simp [EtherHandles.handle_clone, EtherHandles.handle_simulate,
    EtherSimulator.simulate, EtherSimulator.get_current_byte,
    EtherSimulator.collect_broadcasts, EtherSimulator.btreeInsert,
    EtherSimulator.put_all, WirelessModemFake.get_from_device_network_side,
    WirelessModemFake.put_to_device_network_side, WirelessModemFake.start_tick,
    WirelessModemFake.put_to_rx_pin, WirelessModemFake.new, h1]

/-- Helper for C2: running `k ≤ |sa|` tick cycles on a two-modem ether
where only the first modem has supply `sa` moves the first `k` bytes,
in order, onto the second modem's TX queue, leaves the first modem's TX
queue empty, and (for `k > 0`) remembers the sender as last
broadcaster. -/
theorem two_modem_run (ename na nb : String) :
    ∀ (k : Nat) (sa racc : List Nat) (lb : Option String), k ≤ sa.length →
      EtherSimulator.run_cycles k (two_modem_ether ename na nb sa racc lb) =
        some (two_modem_ether ename na nb (sa.drop k) (racc ++ sa.take k)
          (if k = 0 then lb else some na)) := by
  intro k
  induction k with
  | zero =>
    intro sa racc lb _
    simp [EtherSimulator.run_cycles]
  | succ k ih =>
    intro sa racc lb hk
    cases sa with
    | nil => simp at hk
    | cons s rest =>
      have hstep : EtherSimulator.tick_cycle
          (two_modem_ether ename na nb (s :: rest) racc lb) =
          some (two_modem_ether ename na nb rest (racc ++ [s]) (some na)) := by
        cases lb <;> rfl
      simp only [EtherSimulator.run_cycles, hstep]
      rw [ih rest (racc ++ [s]) (some na) (by simpa using hk)]
      simp [List.append_assoc]

/-- C2: with modems A (`na`, RX supply `sa`) and B (`nb`, silent)
registered in one ether, running the tick cycle `k ≤ |sa|` times
delivers the first `k` bytes of A's RX queue to B's TX pin in FIFO
order, and A's own TX pin stays empty throughout; at `k = |sa|` every
byte has been delivered. -/
theorem single_broadcaster_fifo (ename na nb : String) (sa : List Nat) (k : Nat)
    (hk : k ≤ sa.length) :
    EtherSimulator.run_cycles k (two_modem_ether ename na nb sa [] none) =
      some (two_modem_ether ename na nb (sa.drop k) (sa.take k)
        (if k = 0 then none else some na)) ∧
    (two_modem_ether ename na nb (sa.drop k) (sa.take k)
        (if k = 0 then none else some na)).devices.map
        (fun m => (m.name, m.from_antenna_buffer)) =
      [(na, []), (nb, sa.take k)] := by
  constructor
  · have h := two_modem_run ename na nb k sa [] none hk
    simpa using h
  · simp [two_modem_ether]

/-- Witness for C2: two bytes through a concrete two-modem ether. -/
theorem single_broadcaster_fifo_witness :
    EtherSimulator.run_cycles 2 (two_modem_ether "E" "A" "B" [5, 6] [] none) =
      some (two_modem_ether "E" "A" "B" [] [5, 6] (some "A")) := by
  have h := (single_broadcaster_fifo "E" "A" "B" [5, 6] 2 (by decide)).1
  simpa using h

/-- Helper for C4: a tick in which sender `na` wins.  With both senders
supplying bytes and the remembered broadcaster not `na` (nothing
remembered, or `nb`, or any third name), the map keeps `na`'s entry,
`na` is lexicographically first, its byte `x` reaches the silent
receiver, and both senders consume one byte (the loser's byte is
dropped at `end_tick`). -/
theorem collision_step_A (ename na nb nc : String) (hlt : na < nb)
    (x y : Nat) (as1 bs1 cacc : List Nat) (lb : Option String)
    (hlb : lb ≠ some na) :
    EtherSimulator.tick_cycle
        (collision_ether ename na nb nc (x :: as1) (y :: bs1) cacc lb) =
      some (collision_ether ename na nb nc as1 bs1 (cacc ++ [x]) (some na)) := by
  have h1 : ¬ nb < na := asymm hlt
  have h2 : nb ≠ na := ne_of_gt hlt
  cases lb with
  | none =>
    simp [EtherSimulator.tick_cycle, EtherSimulator.simulate,
      EtherSimulator.get_current_byte, EtherSimulator.collect_broadcasts,
      EtherSimulator.btreeInsert, EtherSimulator.put_all,
      EtherSimulator.start_tick, EtherSimulator.end_tick, collision_ether,
      WirelessModemFake.start_tick, WirelessModemFake.end_tick,
      WirelessModemFake.get_from_device_network_side,
      WirelessModemFake.put_to_device_network_side, h1, h2]
  | some l =>
    have hl : na ≠ l := fun h => hlb (by rw [h])
    by_cases hlb2 : nb = l
    · subst hlb2
      simp [EtherSimulator.tick_cycle, EtherSimulator.simulate,
        EtherSimulator.get_current_byte, EtherSimulator.collect_broadcasts,
        EtherSimulator.btreeInsert, EtherSimulator.put_all,
        EtherSimulator.start_tick, EtherSimulator.end_tick, collision_ether,
        WirelessModemFake.start_tick, WirelessModemFake.end_tick,
        WirelessModemFake.get_from_device_network_side,
        WirelessModemFake.put_to_device_network_side, h1, h2, hl]
    · simp [EtherSimulator.tick_cycle, EtherSimulator.simulate,
        EtherSimulator.get_current_byte, EtherSimulator.collect_broadcasts,
        EtherSimulator.btreeInsert, EtherSimulator.put_all,
        EtherSimulator.start_tick, EtherSimulator.end_tick, collision_ether,
        WirelessModemFake.start_tick, WirelessModemFake.end_tick,
        WirelessModemFake.get_from_device_network_side,
        WirelessModemFake.put_to_device_network_side, h1, h2, hl, hlb2]

/-- Helper for C4: a tick in which sender `nb` wins because `na` is the
remembered broadcaster and is removed from the map. -/
theorem collision_step_B (ename na nb nc : String) (hlt : na < nb)
    (x y : Nat) (as1 bs1 cacc : List Nat) :
    EtherSimulator.tick_cycle
        (collision_ether ename na nb nc (x :: as1) (y :: bs1) cacc (some na)) =
      some (collision_ether ename na nb nc as1 bs1 (cacc ++ [y]) (some nb)) := by
  have h1 : ¬ nb < na := asymm hlt
  have h2 : nb ≠ na := ne_of_gt hlt
  simp [EtherSimulator.tick_cycle, EtherSimulator.simulate,
    EtherSimulator.get_current_byte, EtherSimulator.collect_broadcasts,
    EtherSimulator.btreeInsert, EtherSimulator.put_all,
    EtherSimulator.start_tick, EtherSimulator.end_tick, collision_ether,
    WirelessModemFake.start_tick, WirelessModemFake.end_tick,
    WirelessModemFake.get_from_device_network_side,
    WirelessModemFake.put_to_device_network_side, h1, h2]

/-- Helper for C4: running `n` tick cycles with both senders supplied
delivers exactly the alternating winner stream to the silent receiver,
with the next turn decided by whether `na` is the remembered
broadcaster. -/
theorem collision_run (ename na nb nc : String) (hlt : na < nb) :
    ∀ (n : Nat) (as_ bs cacc : List Nat) (lb : Option String),
      n ≤ as_.length → n ≤ bs.length →
      ∃ lbf, EtherSimulator.run_cycles n
          (collision_ether ename na nb nc as_ bs cacc lb) =
        some (collision_ether ename na nb nc (as_.drop n) (bs.drop n)
          (cacc ++ altDeliveries (decide (lb ≠ some na)) as_ bs n) lbf) := by
  intro n
  induction n with
  | zero =>
    intro as_ bs cacc lb _ _
    exact ⟨lb, by simp [EtherSimulator.run_cycles, altDeliveries]⟩
  | succ k ih =>
    intro as_ bs cacc lb ha hb
    cases as_ with
    | nil => simp at ha
    | cons x as1 =>
      cases bs with
      | nil => simp at hb
      | cons y bs1 =>
        have ha1 : k ≤ as1.length := by simpa using ha
        have hb1 : k ≤ bs1.length := by simpa using hb
        have h2 : nb ≠ na := ne_of_gt hlt
        by_cases hlb : lb = some na
        · subst hlb
          obtain ⟨lbf, hrun⟩ := ih as1 bs1 (cacc ++ [y]) (some nb) ha1 hb1
          refine ⟨lbf, ?_⟩
          have hstep := collision_step_B ename na nb nc hlt x y as1 bs1 cacc
          simp only [EtherSimulator.run_cycles, hstep]
          rw [hrun]
          simp [altDeliveries, List.append_assoc, h2]
        · obtain ⟨lbf, hrun⟩ := ih as1 bs1 (cacc ++ [x]) (some na) ha1 hb1
          refine ⟨lbf, ?_⟩
          have hstep := collision_step_A ename na nb nc hlt x y as1 bs1 cacc lb hlb
          simp only [EtherSimulator.run_cycles, hstep]
          rw [hrun]
          simp [altDeliveries, List.append_assoc, hlb]

/-- With enough supply, the alternating delivery stream has exactly one
byte per tick. -/
theorem altDeliveries_length :
    ∀ (n : Nat) (turn : Bool) (as_ bs : List Nat),
      n ≤ as_.length → n ≤ bs.length →
      (altDeliveries turn as_ bs n).length = n := by
  intro n
  induction n with
  | zero =>
    intro turn as_ bs _ _
    cases as_ <;> cases bs <;> cases turn <;> rfl
  | succ k ih =>
    intro turn as_ bs ha hb
    cases as_ with
    | nil => simp at ha
    | cons x as1 =>
      cases bs with
      | nil => simp at hb
      | cons y bs1 =>
        cases turn <;>
          simp [altDeliveries,
            ih _ as1 bs1 (by simpa using ha) (by simpa using hb)]

/-- The alternating delivery stream, position by position: tick `t`
(0-based) carries the `t`-th byte of the sender whose turn it is; with
`turn = true` (sender A first) the even positions come from A's stream
and the odd ones from B's. -/
theorem altDeliveries_get? :
    ∀ (n : Nat) (turn : Bool) (as_ bs : List Nat) (t : Nat),
      t < n → n ≤ as_.length → n ≤ bs.length →
      (altDeliveries turn as_ bs n).get? t =
        if decide (t % 2 = 0) = turn then as_.get? t else bs.get? t := by
  intro n
  induction n with
  | zero =>
    intro turn as_ bs t ht _ _
    exact absurd ht (by simp)
  | succ k ih =>
    intro turn as_ bs t ht ha hb
    cases as_ with
    | nil => simp at ha
    | cons x as1 =>
      cases bs with
      | nil => simp at hb
      | cons y bs1 =>
        have ha1 : k ≤ as1.length := by simpa using ha
        have hb1 : k ≤ bs1.length := by simpa using hb
        cases t with
        | zero =>
          cases turn <;> simp [altDeliveries]
        | succ t1 =>
          have ht1 : t1 < k := by omega
          rcases Nat.mod_two_eq_zero_or_one t1 with hpar | hpar
          · have hpar1 : (t1 + 1) % 2 = 1 := by omega
            cases turn with
            | false =>
              have hrec := ih true as1 bs1 t1 ht1 ha1 hb1
              simp [hpar] at hrec
              simp [altDeliveries, hpar1, hrec]
            | true =>
              have hrec := ih false as1 bs1 t1 ht1 ha1 hb1
              simp [hpar] at hrec
              simp [altDeliveries, hpar1, hrec]
          · have hpar1 : (t1 + 1) % 2 = 0 := by omega
            cases turn with
            | false =>
              have hrec := ih true as1 bs1 t1 ht1 ha1 hb1
              simp [hpar] at hrec
              simp [altDeliveries, hpar1, hrec]
            | true =>
              have hrec := ih false as1 bs1 t1 ht1 ha1 hb1
              simp [hpar] at hrec
              simp [altDeliveries, hpar1, hrec]

/-- Among the first `N` ticks, `⌈N/2⌉` have even index and `⌊N/2⌋` have
odd index: the share of each sender in the alternating schedule. -/
theorem range_parity_count (N : Nat) :
    ((List.range N).filter (fun t => decide (t % 2 = 0))).length = (N + 1) / 2 ∧
    ((List.range N).filter (fun t => decide (t % 2 = 1))).length = N / 2 := by
  induction N with
  | zero => simp
  | succ k ih =>
    rw [List.range_succ]
    rcases Nat.mod_two_eq_zero_or_one k with h | h
    · simp only [List.filter_append, List.length_append, ih.1, ih.2]
      simp [h]
      omega
    · simp only [List.filter_append, List.length_append, ih.1, ih.2]
      simp [h]
      omega

/-- C4: with senders `na < nb` both holding at least `N ≥ 2` queued
bytes and a silent third modem `nc` in the same ether, `N` tick cycles
deliver to `nc` exactly the alternating stream `altDeliveries`: the
byte of tick `t` comes from A's stream at even `t` and from B's at odd
`t` (strict alternation), so A contributes `⌈N/2⌉` and B `⌊N/2⌋` of the
`N` delivered bytes, counts that lie within the claimed bounds
`⌊N/2⌋ − 1 ≤ count ≤ ⌈N/2⌉ + 1`. -/
theorem collision_alternation (ename na nb nc : String) (as_ bs : List Nat)
    (N : Nat) (hN : 2 ≤ N) (hlt : na < nb) (ha : N ≤ as_.length)
    (hb : N ≤ bs.length) :
    ∃ lbf,
      EtherSimulator.run_cycles N (collision_ether ename na nb nc as_ bs [] none) =
        some (collision_ether ename na nb nc (as_.drop N) (bs.drop N)
          (altDeliveries true as_ bs N) lbf) ∧
      (altDeliveries true as_ bs N).length = N ∧
      (∀ t, t < N → (altDeliveries true as_ bs N).get? t =
        if t % 2 = 0 then as_.get? t else bs.get? t) ∧
      ((List.range N).filter (fun t => decide (t % 2 = 0))).length = (N + 1) / 2 ∧
      ((List.range N).filter (fun t => decide (t % 2 = 1))).length = N / 2 ∧
      N / 2 - 1 ≤ (N + 1) / 2 ∧ (N + 1) / 2 ≤ (N + 1) / 2 + 1 ∧
      N / 2 - 1 ≤ N / 2 ∧ N / 2 ≤ (N + 1) / 2 + 1 := by
  obtain ⟨lbf, hrun⟩ := collision_run ename na nb nc hlt N as_ bs [] none ha hb
  refine ⟨lbf, by simpa using hrun,
    altDeliveries_length N true as_ bs ha hb, ?_,
    (range_parity_count N).1, (range_parity_count N).2,
    by omega, by omega, by omega, by omega⟩
  intro t ht
  have h := altDeliveries_get? N true as_ bs t ht ha hb
  rw [h]
  by_cases hpar : t % 2 = 0 <;> simp [hpar]

/-- Witness for C4: two senders with two bytes each and a silent third
modem; after two ticks the receiver holds byte 1 (sender A, tick 0)
then byte 4 (sender B, tick 1). -/
theorem collision_alternation_witness :
    (EtherSimulator.run_cycles 2
        (collision_ether "E" "A" "B" "C" [1, 2] [3, 4] [] none)).map
      (fun e => e.devices.map (fun m => m.from_antenna_buffer)) =
      some [[], [], [1, 4]] := by
  obtain ⟨lbf, h1, _⟩ := collision_alternation "E" "A" "B" "C" [1, 2] [3, 4] 2
    (by omega) (by simp; decide) (by simp) (by simp)
  rw [h1]
  rfl

/-- Membership in the sorted insert: every entry is the inserted pair
or an original entry. -/
theorem mem_btreeInsert (k : String) (v : Nat) (l : List (String × Nat))
    (p : String × Nat) (hp : p ∈ EtherSimulator.btreeInsert k v l) :
    p = (k, v) ∨ p ∈ l := by
  induction l with
  | nil =>
    simp [EtherSimulator.btreeInsert] at hp
    exact Or.inl hp
  | cons q rest ih =>
    obtain ⟨k1, v1⟩ := q
    by_cases h1 : k < k1
    · rw [EtherSimulator.btreeInsert, if_pos h1] at hp
      rcases List.mem_cons.mp hp with h | h
      · exact Or.inl h
      · exact Or.inr h
    · rw [EtherSimulator.btreeInsert, if_neg h1] at hp
      by_cases h2 : k = k1
      · rw [if_pos h2] at hp
        rcases List.mem_cons.mp hp with h | h
        · exact Or.inl h
        · exact Or.inr (List.mem_cons_of_mem _ h)
      · rw [if_neg h2] at hp
        rcases List.mem_cons.mp hp with h | h
        · exact Or.inr (by rw [h]; exact List.mem_cons_self _ _)
        · rcases ih h with h3 | h3
          · exact Or.inl h3
          · exact Or.inr (List.mem_cons_of_mem _ h3)

/-- Inserting into the sorted association list keeps it strictly sorted
by key. -/
theorem btreeInsert_pairwise (k : String) (v : Nat) (l : List (String × Nat))
    (hl : l.Pairwise (fun a b => a.1 < b.1)) :
    (EtherSimulator.btreeInsert k v l).Pairwise (fun a b => a.1 < b.1) := by
  induction l with
  | nil => simp [EtherSimulator.btreeInsert]
  | cons p rest ih =>
    obtain ⟨k1, v1⟩ := p
    rw [List.pairwise_cons] at hl
    by_cases h1 : k < k1
    · rw [EtherSimulator.btreeInsert, if_pos h1]
      refine List.pairwise_cons.mpr ⟨?_, List.pairwise_cons.mpr hl⟩
      intro p hp
      rcases List.mem_cons.mp hp with hEq | hmem
      · rw [hEq]; exact h1
      · exact lt_trans h1 (hl.1 p hmem)
    · rw [EtherSimulator.btreeInsert, if_neg h1]
      by_cases h2 : k = k1
      · rw [if_pos h2]
        subst h2
        exact List.pairwise_cons.mpr hl
      · rw [if_neg h2]
        have hk1k : k1 < k := lt_of_le_of_ne (le_of_not_lt h1) (Ne.symm h2)
        refine List.pairwise_cons.mpr ⟨?_, ih hl.2⟩
        intro p hp
        rcases mem_btreeInsert k v rest p hp with h | h
        · rw [h]; exact hk1k
        · exact hl.1 p h

/-- The key set of the sorted insert. -/
theorem keys_btreeInsert (k : String) (v : Nat) (l : List (String × Nat))
    (k1 : String) :
    k1 ∈ (EtherSimulator.btreeInsert k v l).map Prod.fst ↔
      k1 = k ∨ k1 ∈ l.map Prod.fst := by
  induction l with
  | nil => simp [EtherSimulator.btreeInsert]
  | cons q rest ih =>
    obtain ⟨k2, v2⟩ := q
    by_cases h1 : k < k2
    · rw [EtherSimulator.btreeInsert, if_pos h1]
      simp
    · rw [EtherSimulator.btreeInsert, if_neg h1]
      by_cases h2 : k = k2
      · rw [if_pos h2]
        subst h2
        simp
      · rw [if_neg h2]
        simp only [List.map_cons, List.mem_cons, ih]
        tauto

/-- Lookup after the sorted insert: the inserted key now maps to the
inserted value, every other key is untouched. -/
theorem alookup_btreeInsert (k : String) (v : Nat) (l : List (String × Nat))
    (k1 : String) :
    alookup k1 (EtherSimulator.btreeInsert k v l) =
      if k1 = k then some v else alookup k1 l := by
  induction l with
  | nil => simp [EtherSimulator.btreeInsert, alookup]
  | cons q rest ih =>
    obtain ⟨k2, v2⟩ := q
    by_cases h1 : k < k2
    · rw [EtherSimulator.btreeInsert, if_pos h1]
      rfl
    · rw [EtherSimulator.btreeInsert, if_neg h1]
      by_cases h2 : k = k2
      · rw [if_pos h2]
        subst h2
        by_cases h3 : k1 = k
        · subst h3; simp [alookup]
        · simp [alookup, h3]
      · rw [if_neg h2]
        by_cases h3 : k1 = k2
        · subst h3
          have hne : k1 ≠ k := fun hEq => h2 hEq.symm
          simp [alookup, hne]
        · simp [alookup, h3, ih]

/-- Lookup distributes over append, first list first. -/
theorem alookup_append (k : String) (l1 l2 : List (String × Nat)) :
    alookup k (l1 ++ l2) =
      match alookup k l1 with
      | some v => some v
      | none => alookup k l2 := by
  induction l1 with
  | nil => simp [alookup]
  | cons q rest ih =>
    obtain ⟨k1, v1⟩ := q
    by_cases h : k = k1
    · simp [alookup, h]
    · simp [alookup, h, ih]

/-- The collected map stays strictly sorted by key. -/
theorem collect_total_pairwise (devs : List WirelessModemFake)
    (acc : List (String × Nat)) (hacc : acc.Pairwise (fun a b => a.1 < b.1)) :
    (collect_total devs acc).Pairwise (fun a b => a.1 < b.1) := by
  induction devs generalizing acc with
  | nil => exact hacc
  | cons m rest ih =>
    unfold collect_total
    cases broadcast_byte m with
    | none => exact ih acc hacc
    | some b => exact ih _ (btreeInsert_pairwise m.name b acc hacc)

/-- The key set of the collected map: the broadcasting devices' names
plus the accumulator's keys. -/
theorem keys_collect_total (devs : List WirelessModemFake)
    (acc : List (String × Nat)) (k : String) :
    k ∈ (collect_total devs acc).map Prod.fst ↔
      k ∈ (specBroadcastPairs devs).map Prod.fst ∨ k ∈ acc.map Prod.fst := by
  induction devs generalizing acc with
  | nil => simp [collect_total, specBroadcastPairs]
  | cons m rest ih =>
    unfold collect_total
    cases hb : broadcast_byte m with
    | none =>
      rw [ih acc]
      simp [specBroadcastPairs, hb]
    | some b =>
      rw [ih _]
      have hpairs : specBroadcastPairs (m :: rest) =
          (m.name, b) :: specBroadcastPairs rest := by
        unfold specBroadcastPairs
        simp [hb]
      rw [hpairs, List.map_cons, List.mem_cons, keys_btreeInsert]
      tauto

/-- Lookup in the collected map: the last broadcasting device with the
given name wins, the accumulator answers only names nobody broadcast. -/
theorem alookup_collect_total (devs : List WirelessModemFake)
    (acc : List (String × Nat)) (k : String) :
    alookup k (collect_total devs acc) =
      match specMapLookup devs k with
      | some v => some v
      | none => alookup k acc := by
  induction devs generalizing acc with
  | nil => simp [collect_total, specMapLookup, specBroadcastPairs, alookup]
  | cons m rest ih =>
    unfold collect_total
    cases hb : broadcast_byte m with
    | none =>
      rw [ih acc]
      have hsame : specMapLookup (m :: rest) k = specMapLookup rest k := by
        unfold specMapLookup specBroadcastPairs
        simp [hb]
      rw [hsame]
    | some b =>
      rw [ih _]
      have hsplit : specMapLookup (m :: rest) k =
          match specMapLookup rest k with
          | some v => some v
          | none => if k = m.name then some b else none := by
        unfold specMapLookup specBroadcastPairs
        simp only [List.filterMap_cons, hb, Option.map_some', List.reverse_cons]
        rw [alookup_append]
        cases alookup k (List.filterMap
            (fun m => Option.map (fun b => (m.name, b)) (broadcast_byte m))
            rest).reverse with
        | none => simp [alookup]
        | some v => rfl
      rw [hsplit, alookup_btreeInsert]
      cases hs : specMapLookup rest k with
      | some v => rfl
      | none =>
        by_cases hk : k = m.name
        · rw [if_pos hk, if_pos hk]
        · rw [if_neg hk, if_neg hk]

/-- Keys of a strictly sorted association list are distinct. -/
theorem keys_nodup_of_pairwise (l : List (String × Nat))
    (hl : l.Pairwise (fun a b => a.1 < b.1)) : (l.map Prod.fst).Nodup :=
  List.Pairwise.map Prod.fst (fun _ _ h => ne_of_lt h) hl

/-- The head key of a strictly sorted association list is its least
key. -/
theorem head_key_min_of_pairwise (p : String × Nat) (rest : List (String × Nat))
    (hl : (p :: rest).Pairwise (fun a b => a.1 < b.1)) :
    ∀ k ∈ (p :: rest).map Prod.fst, p.1 ≤ k := by
  intro k hk
  rw [List.map_cons, List.mem_cons] at hk
  rcases hk with h | h
  · exact h ▸ le_refl _
  · obtain ⟨q, hq, hqk⟩ := List.mem_map.mp h
    exact le_of_lt (hqk ▸ (List.pairwise_cons.mp hl).1 q hq)

/-- Filtering by a predicate on the key commutes with taking keys. -/
theorem keys_filter_comm (l : List (String × Nat)) (last : String) :
    (l.filter (fun p => decide (p.1 ≠ last))).map Prod.fst =
      (l.map Prod.fst).filter (fun n => decide (n ≠ last)) := by
  induction l with
  | nil => rfl
  | cons p rest ih =>
    simp only [decide_not] at ih ⊢
    by_cases h : p.1 = last
    · simp [List.filter_cons, h, ih]
    · simp [List.filter_cons, h, ih]

/-- Filtering out a foreign key does not change a lookup. -/
theorem alookup_filter_key (l : List (String × Nat)) (last k : String)
    (hk : k ≠ last) :
    alookup k (l.filter (fun p => decide (p.1 ≠ last))) = alookup k l := by
  induction l with
  | nil => rfl
  | cons p rest ih =>
    simp only [decide_not] at ih ⊢
    obtain ⟨k1, v1⟩ := p
    by_cases h1 : k1 = last
    · subst h1
      have hkk : k ≠ k1 := hk
      simp [List.filter_cons, alookup, ih, hkk]
    · by_cases h2 : k = k1
      · subst h2
        simp [List.filter_cons, alookup, h1]
      · simp [List.filter_cons, alookup, h1, h2, ih]

/-- `List.min?` on strings is characterised as the least element. -/
theorem string_min?_eq_some_iff (l : List String) (a : String) :
    l.min? = some a ↔ a ∈ l ∧ ∀ b ∈ l, a ≤ b := by
  haveI : Std.Antisymm (fun x1 x2 : String => x1 ≤ x2) :=
    ⟨@fun x y h h2 => le_antisymm h h2⟩
  exact List.min?_eq_some_iff (fun _ => le_refl _) (fun a b => min_choice a b)
    (fun _ _ _ => le_min_iff)

/-- Two duplicate-free lists with the same members have the same
length. -/
theorem length_eq_of_nodup_set_eq (l1 l2 : List String) (h1 : l1.Nodup)
    (h2 : l2.Nodup) (h : ∀ a, a ∈ l1 ↔ a ∈ l2) : l1.length = l2.length :=
  ((List.perm_ext_iff_of_nodup h1 h2).mpr h).length_eq

/-- Core of C1: on a strictly sorted map whose key set matches the
spec's name set and whose lookups agree with the spec's map, the spec's
"minimal remaining name" winner coincides with the code's "first entry
of the sorted map" winner. -/
theorem winner_spec_core (devs : List WirelessModemFake)
    (l : List (String × Nat)) (names : List String)
    (hsort : l.Pairwise (fun a b => a.1 < b.1))
    (hset : ∀ k, k ∈ l.map Prod.fst ↔ k ∈ names)
    (hval : ∀ k, k ∈ l.map Prod.fst → alookup k l = specMapLookup devs k) :
    (match names.min? with
      | none => ((none : Option String), (none : Option Nat))
      | some w => (some w, specMapLookup devs w)) =
    (match l.head? with
      | none => ((none : Option String), (none : Option Nat))
      | some p => (some p.1, some p.2)) := by
  cases l with
  | nil =>
    have hnil : names = [] :=
      List.eq_nil_iff_forall_not_mem.mpr
        (fun a ha => by simpa using (hset a).mpr ha)
    rw [hnil]
    rfl
  | cons p rest =>
    obtain ⟨n, b⟩ := p
    have hmin : names.min? = some n := by
      rw [string_min?_eq_some_iff]
      refine ⟨(hset n).mp (by simp), ?_⟩
      intro x hx
      exact head_key_min_of_pairwise (n, b) rest hsort x ((hset x).mpr hx)
    rw [hmin]
    dsimp only
    have hb : specMapLookup devs n = some b := by
      rw [← hval n (by simp)]
      simp [alookup]
    rw [hb]
    rfl

/-- C1: with every registered device inside a tick, one call of
`EtherSimulator.simulate` realises exactly the spec's propagation
algorithm `specPropagation`: `get_current_byte` returns the byte of the
lexicographically first name remaining after the last-broadcaster
removal (last write wins per name), records that name (clearing it when
the map is empty), and `simulate` then delivers the winning byte to
every registered device (no device when no byte survived). -/
theorem ether_simulate_matches_spec (e : EtherSimulator)
    (h : ∀ m ∈ e.devices, m.tick_state = TickState.InTick) :
    EtherSimulator.get_current_byte e =
      some ({ e with last_broadcasted_device :=
                (specPropagation e.devices e.last_broadcasted_device).1 },
            (specPropagation e.devices e.last_broadcasted_device).2) ∧
    EtherSimulator.simulate e =
      some { e with
               last_broadcasted_device :=
                 (specPropagation e.devices e.last_broadcasted_device).1,
               devices :=
                 match (specPropagation e.devices e.last_broadcasted_device).2 with
                 | none => e.devices
                 | some b => e.devices.map (deliver_byte b) } := by
  have hsort := collect_total_pairwise e.devices [] List.Pairwise.nil
  have hkeys : ∀ k, k ∈ (collect_total e.devices []).map Prod.fst ↔
      k ∈ specMapNames e.devices := by
    intro k
    rw [keys_collect_total]
    simp [specMapNames, List.mem_dedup]
  have hnodupd := keys_nodup_of_pairwise _ hsort
  have hnodupn : (specMapNames e.devices).Nodup := List.nodup_dedup _
  have hlen : (collect_total e.devices []).length =
      (specMapNames e.devices).length := by
    have h1 : ((collect_total e.devices []).map Prod.fst).length =
        (specMapNames e.devices).length :=
      length_eq_of_nodup_set_eq _ _ hnodupd hnodupn hkeys
    simpa using h1
  have hlook : ∀ k, alookup k (collect_total e.devices []) =
      specMapLookup e.devices k := by
    intro k
    rw [alookup_collect_total]
    cases specMapLookup e.devices k <;> simp [alookup]
  have hgcb : EtherSimulator.get_current_byte e =
      some ({ e with last_broadcasted_device :=
                (specPropagation e.devices e.last_broadcasted_device).1 },
            (specPropagation e.devices e.last_broadcasted_device).2) := by
    unfold EtherSimulator.get_current_byte
    rw [collect_broadcasts_eq_total e.devices h []]
    dsimp only
    cases hl : e.last_broadcasted_device with
    | none =>
      dsimp only
      cases hd : collect_total e.devices [] with
      | nil =>
        have hs : specPropagation e.devices none = (none, none) := by
          unfold specPropagation
          dsimp only
          have hnil : specMapNames e.devices = [] :=
            List.eq_nil_iff_forall_not_mem.mpr (fun a ha => by
              have hmem := (hkeys a).mpr ha
              rw [hd] at hmem
              simp at hmem)
          rw [hnil]
          rfl
        rw [hs]
      | cons p rest =>
        obtain ⟨n, b⟩ := p
        have hs : specPropagation e.devices none = (some n, some b) := by
          unfold specPropagation
          dsimp only
          have hmin : (specMapNames e.devices).min? = some n := by
            rw [string_min?_eq_some_iff]
            refine ⟨(hkeys n).mp (by rw [hd]; simp), ?_⟩
            intro x hx
            have hxk := (hkeys x).mpr hx
            rw [hd] at hxk
            exact head_key_min_of_pairwise (n, b) rest (hd ▸ hsort) x hxk
          rw [hmin]
          dsimp only
          have hb2 : specMapLookup e.devices n = some b := by
            rw [← hlook n, hd]
            simp [alookup]
          rw [hb2]
        rw [hs]
    | some last =>
      dsimp only
      rw [hlen]
      by_cases hgt : 1 < (specMapNames e.devices).length
      · rw [if_pos hgt]
        have hsortF := List.Pairwise.filter
          (fun p : String × Nat => decide (p.1 ≠ last)) hsort
        have hkeysF : ∀ k, k ∈ ((collect_total e.devices []).filter
            (fun p => decide (p.1 ≠ last))).map Prod.fst ↔
            k ∈ (specMapNames e.devices).filter (fun n => decide (n ≠ last)) := by
          intro k
          rw [keys_filter_comm, List.mem_filter, List.mem_filter, hkeys]
        cases hd : (collect_total e.devices []).filter
            (fun p => decide (p.1 ≠ last)) with
        | nil =>
          have hs : specPropagation e.devices (some last) = (none, none) := by
            unfold specPropagation
            dsimp only
            rw [if_pos hgt]
            have hnil : (specMapNames e.devices).filter
                (fun n => decide (n ≠ last)) = [] :=
              List.eq_nil_iff_forall_not_mem.mpr (fun a ha => by
                have hmem := (hkeysF a).mpr ha
                rw [hd] at hmem
                simp at hmem)
            rw [hnil]
            rfl
          rw [hs]
        | cons p rest =>
          obtain ⟨n, b⟩ := p
          have hnlast : n ≠ last := by
            have hmem : (n, b) ∈ (collect_total e.devices []).filter
                (fun p => decide (p.1 ≠ last)) := by
              rw [hd]
              exact List.mem_cons_self _ _
            have := List.of_mem_filter hmem
            simpa using this
          have hs : specPropagation e.devices (some last) = (some n, some b) := by
            unfold specPropagation
            dsimp only
            rw [if_pos hgt]
            have hmin : ((specMapNames e.devices).filter
                (fun n => decide (n ≠ last))).min? = some n := by
              rw [string_min?_eq_some_iff]
              refine ⟨(hkeysF n).mp (by rw [hd]; simp), ?_⟩
              intro x hx
              have hxk := (hkeysF x).mpr hx
              rw [hd] at hxk
              exact head_key_min_of_pairwise (n, b) rest (hd ▸ hsortF) x hxk
            rw [hmin]
            dsimp only
            have hb2 : specMapLookup e.devices n = some b := by
              rw [← hlook n,
                ← alookup_filter_key (collect_total e.devices []) last n hnlast,
                hd]
              simp [alookup]
            rw [hb2]
          rw [hs]
      · rw [if_neg hgt]
        cases hd : collect_total e.devices [] with
        | nil =>
          have hs : specPropagation e.devices (some last) = (none, none) := by
            unfold specPropagation
            dsimp only
            rw [if_neg hgt]
            have hnil : specMapNames e.devices = [] :=
              List.eq_nil_iff_forall_not_mem.mpr (fun a ha => by
                have hmem := (hkeys a).mpr ha
                rw [hd] at hmem
                simp at hmem)
            rw [hnil]
            rfl
          rw [hs]
        | cons p rest =>
          obtain ⟨n, b⟩ := p
          have hs : specPropagation e.devices (some last) = (some n, some b) := by
            unfold specPropagation
            dsimp only
            rw [if_neg hgt]
            have hmin : (specMapNames e.devices).min? = some n := by
              rw [string_min?_eq_some_iff]
              refine ⟨(hkeys n).mp (by rw [hd]; simp), ?_⟩
              intro x hx
              have hxk := (hkeys x).mpr hx
              rw [hd] at hxk
              exact head_key_min_of_pairwise (n, b) rest (hd ▸ hsort) x hxk
            rw [hmin]
            dsimp only
            have hb2 : specMapLookup e.devices n = some b := by
              rw [← hlook n, hd]
              simp [alookup]
            rw [hb2]
          rw [hs]
  refine ⟨hgcb, ?_⟩
  unfold EtherSimulator.simulate
  rw [hgcb]
  cases hob : (specPropagation e.devices e.last_broadcasted_device).2 with
  | none => rfl
  | some b =>
    dsimp only
    rw [put_all_eq_map e.devices b h]

/-- Witness for C1: a concrete in-tick ether with one transmitter "w"
(byte 9) and one idle modem "s"; the propagation step picks "w", records
it, and delivers 9. -/
theorem ether_simulate_matches_spec_witness :
    EtherSimulator.get_current_byte
        { name := "E"
          devices :=
            [ WirelessModemFake.start_tick
                (WirelessModemFake.put_to_rx_pin (WirelessModemFake.new "w") 9)
            , WirelessModemFake.start_tick (WirelessModemFake.new "s") ]
          last_broadcasted_device := none } =
      some ({ name := "E"
              devices :=
                [ WirelessModemFake.start_tick
                    (WirelessModemFake.put_to_rx_pin (WirelessModemFake.new "w") 9)
                , WirelessModemFake.start_tick (WirelessModemFake.new "s") ]
              last_broadcasted_device := some "w" }, some 9) := by
  have hw := (ether_simulate_matches_spec
    { name := "E"
      devices :=
        [ WirelessModemFake.start_tick
            (WirelessModemFake.put_to_rx_pin (WirelessModemFake.new "w") 9)
        , WirelessModemFake.start_tick (WirelessModemFake.new "s") ]
      last_broadcasted_device := none }
    (by decide)).1
  exact hw.trans (by decide)
